import Mathlib

/-!
Verification of the tskctl task-tracker engine (model, parse, ops, scan,
validate, actions) against its specification.

Strings are modelled as `List Char` (`Str`): Python string primitives
(`strip`, `lower`, `split`, ...) are re-implemented over character lists so
that every operation is executable and amenable to proof.  Python
`str.strip()` with no argument strips whitespace; we model the ASCII
whitespace set, which covers every string the engine produces.  Python
`str.lower()` is modelled by ASCII lowercasing (`Char.toLower`), which
agrees with Python on all ASCII text handled by the engine.

Dates (`datetime.date`) are triples of numerals with the standard validity
invariant (1 <= year <= 9999, month/day ranges with leap years), ordered
lexicographically exactly as Python orders dates.  `isoformat` /
`fromisoformat` are modelled on their `YYYY-MM-DD` calendar form.

YAML scalar/collection values produced by `yaml.safe_load` are modelled by
the inductive `YamlValue`; Python `bool` is a subclass of `int`, so YAML
booleans are folded into the integer constructor, matching `isinstance(x,
int)` checks in the source.  File contents are modelled structurally: the
`task.yml` file as its parsed mapping (`yaml.safe_dump` is a deterministic
pure function of that mapping), the `task.log` file as its list of lines
(`"\n".join` / `splitlines` are mutually inverse on newline-free lines),
and `summary.md` as its raw text.
-/

namespace Tskctl

/-- Python strings as character lists. -/
abbrev Str := List Char

/-- Coerce a Lean string literal to the model representation. -/
def str (s : String) : Str := s.data

/-- ASCII whitespace recognised by Python `str.strip` / `str.split`:
space, tab, newline, carriage return, vertical tab, form feed. -/
def isPySpace (c : Char) : Bool :=
  c.toNat == 32 || c.toNat == 9 || c.toNat == 10 ||
  c.toNat == 13 || c.toNat == 11 || c.toNat == 12

/-- Python `str.lstrip()`. -/
def pyLstrip (s : Str) : Str := s.dropWhile isPySpace

/-- Python `str.rstrip()`. -/
def pyRstrip (s : Str) : Str := (s.reverse.dropWhile isPySpace).reverse

/-- Python `str.strip()`. -/
def pyStrip (s : Str) : Str := pyLstrip (pyRstrip s)

/-- Python `str.lower()` (ASCII range). -/
def pyLower (s : Str) : Str := s.map Char.toLower

/-- ASCII decimal digit test. -/
def isPyDigit (c : Char) : Bool := 48 ≤ c.toNat && c.toNat ≤ 57

/-- The decimal digit character of `k % 10` style values (`k < 10` at all
use sites). -/
def digitChar (k : Nat) : Char := Char.ofNat (48 + k)

/-- Numeric value of a digit character. -/
def digitVal (c : Char) : Nat := c.toNat - 48

-- -------------------------------------------------------------------
-- Dates (datetime.date)
-- -------------------------------------------------------------------

/-- A calendar date, as `datetime.date`. -/
structure Date where
  year : Nat
  month : Nat
  day : Nat
deriving DecidableEq, Repr

/-- Gregorian leap-year rule used by `datetime`. -/
def isLeapYear (y : Nat) : Bool := (y % 4 == 0 && y % 100 != 0) || y % 400 == 0

/-- Days of the given month in the given year. -/
def daysInMonth (y m : Nat) : Nat :=
  if m = 2 then (if isLeapYear y then 29 else 28)
  else if m = 4 ∨ m = 6 ∨ m = 9 ∨ m = 11 then 30
  else 31

/-- The `datetime.date` type invariant (MINYEAR = 1, MAXYEAR = 9999). -/
def Date.validB (d : Date) : Bool :=
  1 ≤ d.year && d.year ≤ 9999 && 1 ≤ d.month && d.month ≤ 12 &&
  1 ≤ d.day && d.day ≤ daysInMonth d.year d.month

/-- Strict date order (lexicographic on year, month, day), as Python
compares `date` values. -/
def Date.ltB (a b : Date) : Bool :=
  a.year < b.year ||
  (a.year == b.year && (a.month < b.month ||
    (a.month == b.month && a.day < b.day)))

/-- Reflexive date order. -/
def Date.leB (a b : Date) : Bool := Date.ltB a b || a == b

/-- Zero-padded two-digit rendering (months and days are at most two
digits, so this agrees with Python `%02d`). -/
def pad2 (n : Nat) : Str := [digitChar (n / 10 % 10), digitChar (n % 10)]

/-- Zero-padded four-digit rendering (`datetime` years are at most 9999,
so this agrees with Python `%04d`). -/
def pad4 (n : Nat) : Str :=
  [digitChar (n / 1000 % 10), digitChar (n / 100 % 10),
   digitChar (n / 10 % 10), digitChar (n % 10)]

/-- `date.isoformat()`: `YYYY-MM-DD`. -/
def Date.isoformat (d : Date) : Str :=
  pad4 d.year ++ '-' :: (pad2 d.month ++ '-' :: pad2 d.day)

/-- `date.fromisoformat` on the `YYYY-MM-DD` calendar form; the
constructor validates ranges and raises (here: `none`) otherwise. -/
def Date.fromisoformat (s : Str) : Option Date :=
  match s with
  | [y1, y2, y3, y4, h1, m1, m2, h2, d1, d2] =>
    if h1 == '-' && h2 == '-' &&
        ([y1, y2, y3, y4, m1, m2, d1, d2].all isPyDigit) then
      let y := ((digitVal y1 * 10 + digitVal y2) * 10 + digitVal y3) * 10 + digitVal y4
      let m := digitVal m1 * 10 + digitVal m2
      let dd := digitVal d1 * 10 + digitVal d2
      let dt : Date := ⟨y, m, dd⟩
      if dt.validB then some dt else none
    else none
  | _ => none

/-- Full decimal rendering of a natural number. -/
def natDigits (n : Nat) : Str :=
  if n < 10 then [digitChar n]
  else natDigits (n / 10) ++ [digitChar (n % 10)]
decreasing_by exact Nat.div_lt_self (by omega) (by omega)

/-- Python `%03d`: zero-padded to three digits, full digits beyond 999. -/
def pad3 (n : Nat) : Str :=
  if n < 1000 then [digitChar (n / 100 % 10), digitChar (n / 10 % 10), digitChar (n % 10)]
  else natDigits n

-- -------------------------------------------------------------------
-- Data model (engine/model.py)
-- -------------------------------------------------------------------

/-- Task lifecycle status (`model.Status`). -/
inductive Status where
  | active
  | waiting
  | paused
  | done
deriving DecidableEq, Repr

/-- The string value of each status member. -/
def Status.value : Status → Str
  | .active => str "active"
  | .waiting => str "waiting"
  | .paused => str "paused"
  | .done => str "done"

/-- `Status(raw)`: constructor lookup by value; `none` models the raised
`ValueError`. -/
def Status.ofStr (s : Str) : Option Status :=
  if s = str "active" then some .active
  else if s = str "waiting" then some .waiting
  else if s = str "paused" then some .paused
  else if s = str "done" then some .done
  else none

/-- A single link entry (`model.Link`). -/
structure Link where
  kind : Str
  value : Str
deriving DecidableEq, Repr

/-- In-memory task (`model.Task`). -/
structure Task where
  task_id : Str
  title : Str
  status : Status
  created : Date
  last_touch : Date
  next_action : Str
  summary : Str := []
  log_lines : List Str := []
  links : List Link := []
  format_version : Int := 1
deriving DecidableEq, Repr

/-- `Task.validate`: core invariants; `.error` models the raised
`ValueError` (messages elide Python quoting). -/
def Task.validate (t : Task) : Except Str Unit :=
  if t.task_id = [] ∨ pyStrip t.task_id = [] then
    .error (str "task_id must be a non-empty string")
  else if t.title = [] ∨ pyStrip t.title = [] then
    .error (str "title must be a non-empty string")
  else if Date.ltB t.last_touch t.created then
    .error (str "created must be <= last_touch")
  else
    let na := pyStrip t.next_action
    if t.status = .done then
      if na ≠ [] then .error (str "next_action must be empty when status is done")
      else .ok ()
    else
      if na = [] then .error (str "next_action must be non-empty unless status is done")
      else .ok ()

-- -------------------------------------------------------------------
-- YAML values (yaml.safe_load results)
-- -------------------------------------------------------------------

/-- Structured values produced by `yaml.safe_load`.  Python `bool` is a
subclass of `int`, so YAML booleans live in `vInt`, matching every
`isinstance(x, int)` check in the source.  Timestamp scalars load as
`datetime.date`, modelled by `vDate`. -/
inductive YamlValue where
  | vNull
  | vStr (s : Str)
  | vInt (n : Int)
  | vDate (d : Date)
  | vList (xs : List YamlValue)
  | vMap (entries : List (Str × YamlValue))

/-- A YAML mapping with string keys, in insertion order. -/
abbrev YamlDict := List (Str × YamlValue)

/-- `dict.get(key)`: first entry with the given key. -/
def dictGet (m : YamlDict) (k : Str) : Option YamlValue :=
  match m.find? (fun e => e.1 == k) with
  | some e => some e.2
  | none => none

-- -------------------------------------------------------------------
-- Parser (engine/parse.py)
-- -------------------------------------------------------------------

/-- Structural parse failures (`parse.ParseError`): one constructor per
raise site, carrying the data interpolated into the message. -/
inductive PError where
  | dirMissing (path : Str)
  | notADirectory (path : Str)
  | missingFiles (path : Str) (names : List Str)
  | rootNotMapping (path : Str)
  | missingKey (path : Str) (key : Str)
  | keyNotString (path : Str) (key : Str)
  | keyEmptyString (path : Str) (key : Str)
  | invalidStatus (path : Str) (raw : Str)
  | invalidDate (path : Str) (key : Str) (raw : Str)
  | dateNotString (path : Str) (key : Str)
  | idMismatch (path : Str) (got : Str) (expected : Str)
  | linksNotList (path : Str)
  | linkBadMapping (path : Str) (idx : Nat)
  | linkBadShape (path : Str) (idx : Nat)
  | logEmpty (path : Str)
  | summaryNotFile (path : Str)
  | invariant (msg : Str)
deriving DecidableEq, Repr

/-- On-disk contents of one task case directory, structurally: the parsed
`task.yml` value, the `task.log` lines, and the raw `summary.md` text
(`none` = file absent). -/
structure TaskDirFiles where
  ymlFile : Option YamlValue
  logFile : Option (List Str)
  summaryFile : Option Str

/-- `_require_files`: every missing required file is listed. -/
def requireFiles (path : Str) (files : TaskDirFiles) : Except PError Unit :=
  let missing :=
    (if files.ymlFile.isNone then [str "task.yml"] else []) ++
    (if files.logFile.isNone then [str "task.log"] else [])
  if missing.isEmpty then .ok () else .error (.missingFiles path missing)

/-- `_require_str_field`. -/
def requireStrField (path : Str) (data : YamlDict) (key : Str) (allowEmpty : Bool) :
    Except PError Str :=
  match dictGet data key with
  | none => .error (.missingKey path key)
  | some (.vStr s) =>
    if !allowEmpty && pyStrip s = [] then .error (.keyEmptyString path key) else .ok s
  | some _ => .error (.keyNotString path key)

/-- `_optional_int_field`. -/
def optionalIntField (data : YamlDict) (key : Str) (dflt : Int) : Int :=
  match dictGet data key with
  | some (.vInt n) => n
  | some _ => dflt
  | none => dflt

/-- `_parse_status`. -/
def parseStatusField (path : Str) (data : YamlDict) : Except PError Status := do
  let raw ← requireStrField path data (str "status") false
  match Status.ofStr (pyLower (pyStrip raw)) with
  | some st => .ok st
  | none => .error (.invalidStatus path raw)

/-- `_parse_date` (the `datetime` branch is omitted: the engine never
serialises timestamps). -/
def parseDateField (path : Str) (data : YamlDict) (key : Str) : Except PError Date :=
  match dictGet data key with
  | none => .error (.missingKey path key)
  | some (.vDate d) => .ok d
  | some (.vStr s) =>
    match Date.fromisoformat s with
    | some d => .ok d
    | none => .error (.invalidDate path key s)
  | some _ => .error (.dateNotString path key)

/-- Python `s.split()[0]` for a string with no leading whitespace (the
only context in which the source uses it: `s` is already stripped and
non-empty). -/
def firstToken (s : Str) : Str := s.takeWhile (fun c => !isPySpace c)

/-- Python `s.split(":", 1)` when a colon is present: the parts before
and after the first colon. -/
def splitFirstColon (s : Str) : Str × Str :=
  (s.takeWhile (fun c => c != ':'), (s.dropWhile (fun c => c != ':')).tail)

/-- The loop body of `_parse_links` over the raw list, carrying the
1-based `enumerate` index. -/
def parseLinksLoop (path : Str) (items : List YamlValue) (i : Nat) :
    Except PError (List Link) :=
  match items with
  | [] => .ok []
  | item :: rest =>
    match item with
    | .vStr s0 =>
      let s := pyStrip s0
      if s = [] then parseLinksLoop path rest (i + 1)
      else
        let lk :=
          if (firstToken s).contains ':' then
            Link.mk (pyLower (pyStrip (splitFirstColon s).1)) (pyStrip (splitFirstColon s).2)
          else Link.mk (str "file") s
        (parseLinksLoop path rest (i + 1)).map (fun ls => lk :: ls)
    | .vMap m =>
      match dictGet m (str "kind"), dictGet m (str "value") with
      | some (.vStr k), some (.vStr v) =>
        (parseLinksLoop path rest (i + 1)).map
          (fun ls => Link.mk (pyLower (pyStrip k)) (pyStrip v) :: ls)
      | _, _ => .error (.linkBadMapping path i)
    | _ => .error (.linkBadShape path i)

/-- `_parse_links`. -/
def parseLinks (path : Str) (data : YamlDict) : Except PError (List Link) :=
  match dictGet data (str "links") with
  | none => .ok []
  | some .vNull => .ok []
  | some (.vList xs) => parseLinksLoop path xs 1
  | some _ => .error (.linksNotList path)

/-- `_parse_task_log` on the file's lines: blank lines dropped, retained
lines right-trimmed, at least one entry required. -/
def parseTaskLog (path : Str) (lines : List Str) : Except PError (List Str) :=
  let ls := (lines.filter (fun l => decide (pyStrip l ≠ []))).map pyRstrip
  if ls = [] then .error (.logEmpty path) else .ok ls

/-- The `expected_task_id` comparison in `parse_task`. -/
def checkExpectedId (path : Str) (task_id : Str) (expected : Option Str) :
    Except PError Unit :=
  match expected with
  | some e => if task_id = e then .ok () else .error (.idMismatch path task_id e)
  | none => .ok ()

/-- `parse_task` over the directory's file contents (directory existence
is a filesystem-level precondition modelled by the caller holding a
`TaskDirFiles`).  The final `task.validate()` failure is surfaced in the
error type (Python lets the `ValueError` escape). -/
def parseTask (dpath : Str) (files : TaskDirFiles) (expectedTaskId : Option Str) :
    Except PError Task := do
  requireFiles dpath files
  let ymlPath := dpath ++ str "/task.yml"
  let logPath := dpath ++ str "/task.log"
  let meta ← match files.ymlFile with
    | some .vNull => .ok ([] : YamlDict)
    | some (.vMap m) => .ok m
    | some _ => .error (.rootNotMapping ymlPath)
    | none => .error (.missingFiles dpath [str "task.yml"])
  let logLines ← match files.logFile with
    | some ls => parseTaskLog logPath ls
    | none => .error (.missingFiles dpath [str "task.log"])
  let summary := match files.summaryFile with
    | some s => s
    | none => ([] : Str)
  let task_id ← requireStrField ymlPath meta (str "id") false
  checkExpectedId ymlPath task_id expectedTaskId
  let title ← requireStrField ymlPath meta (str "title") false
  let status ← parseStatusField ymlPath meta
  let created ← parseDateField ymlPath meta (str "created")
  let last_touch ← parseDateField ymlPath meta (str "last_touch")
  let next_action ← requireStrField ymlPath meta (str "next_action") true
  let links ← parseLinks ymlPath meta
  let format_version := optionalIntField meta (str "format") 2
  let task : Task :=
    { task_id, title, status, created, last_touch, next_action,
      summary := pyStrip summary, log_lines := logLines, links, format_version }
  match task.validate with
  | .ok _ => .ok task
  | .error m => .error (.invariant m)

-- -------------------------------------------------------------------
-- Ops / Writer (engine/ops.py)
-- -------------------------------------------------------------------

/-- `NewTaskRequest`. -/
structure NewTaskRequest where
  title : Str
  status : Status := .active
  next_action : Str := []
  summary : Str := []
  links : List Str := []
deriving DecidableEq, Repr

/-- `re.sub(p+, repl, s)` for a character class `p`: each maximal run of
characters satisfying `p` is replaced by the single character `repl`.
`inRun` tracks whether the previous character was part of a run. -/
def subRunsGo (p : Char → Bool) (repl : Char) (inRun : Bool) : Str → Str
  | [] => []
  | c :: rest =>
    if p c then
      if inRun then subRunsGo p repl true rest
      else repl :: subRunsGo p repl true rest
    else c :: subRunsGo p repl false rest

/-- Replace each maximal run of `p`-characters with one `repl`. -/
def subRuns (p : Char → Bool) (repl : Char) (s : Str) : Str :=
  subRunsGo p repl false s

/-- The character class `[a-z0-9_]` of `_SLUG_RE`. -/
def slugAllowed (c : Char) : Bool :=
  (97 ≤ c.toNat && c.toNat ≤ 122) || (48 ≤ c.toNat && c.toNat ≤ 57) || c.toNat == 95

/-- Python `s.strip("_")`. -/
def stripUnderscores (s : Str) : Str :=
  ((s.dropWhile (fun c => c == '_')).reverse.dropWhile (fun c => c == '_')).reverse

/-- `slugify`. -/
def slugify (title : Str) : Str :=
  let s1 := pyLower (pyStrip title)
  let s2 := subRuns isPySpace '_' s1
  let s3 := subRuns (fun c => !slugAllowed c) '_' s2
  let s4 := subRuns (fun c => c == '_') '_' s3
  let s5 := stripUnderscores s4
  if s5 = [] then str "task" else s5

/-- First occurrence split for a substring separator: `some (before,
after)` when `sep` occurs, scanning left to right. -/
def findSepSplit (sep : Str) : Str → Option (Str × Str)
  | [] => none
  | c :: rest =>
    if sep.isPrefixOf (c :: rest) then some ([], (c :: rest).drop sep.length)
    else
      match findSepSplit sep rest with
      | some (a, b) => some (c :: a, b)
      | none => none

/-- Python `s.split(sep, 2)`: at most two splits, left to right. -/
def pySplit2 (sep : Str) (s : Str) : List Str :=
  match findSepSplit sep s with
  | none => [s]
  | some (a, r1) =>
    match findSepSplit sep r1 with
    | none => [a, r1]
    | some (b, r2) => [a, b, r2]

/-- Digit tail of Python `int(str)`: digits with single underscores
allowed between digits. -/
def pyIntDigitsGo (acc : Nat) : Str → Option Nat
  | [] => some acc
  | c :: rest =>
    if isPyDigit c then pyIntDigitsGo (acc * 10 + digitVal c) rest
    else if c == '_' then
      match rest with
      | d :: rest2 =>
        if isPyDigit d then pyIntDigitsGo (acc * 10 + digitVal d) rest2 else none
      | [] => none
    else none

/-- Unsigned digit sequence of Python `int(str)`. -/
def pyIntDigits : Str → Option Nat
  | [] => none
  | c :: rest => if isPyDigit c then pyIntDigitsGo (digitVal c) rest else none

/-- Python `int(str)`: surrounding whitespace stripped, optional sign,
decimal digits with optional grouping underscores; `none` models the
raised `ValueError`. -/
def pyInt (s : Str) : Option Int :=
  match pyStrip s with
  | '+' :: r => (pyIntDigits r).map (fun n => (n : Int))
  | '-' :: r => (pyIntDigits r).map (fun n => -(n : Int))
  | r => (pyIntDigits r).map (fun n => (n : Int))

/-- `next_task_seq` over the store's immediate entries, each given as
(name, is-directory); `storeIsDir` is `tasks_dir.is_dir()`. -/
def nextTaskSeq (storeIsDir : Bool) (entries : List (Str × Bool)) (created : Date) : Int :=
  let pre := created.isoformat ++ str "__"
  if !storeIsDir then 1
  else
    (entries.foldl (fun best e =>
      if !e.2 then best
      else if !(pre.isPrefixOf e.1) then best
      else
        let parts := pySplit2 (str "__") e.1
        if parts.length < 2 then best
        else
          match pyInt (parts.getD 1 []) with
          | some n => if n > best then n else best
          | none => best) 0) + 1

/-- `_normalise_links`. -/
def normaliseLinks : List Str → List Link
  | [] => []
  | raw :: rest =>
    let s := pyStrip raw
    if s = [] then normaliseLinks rest
    else
      let kv :=
        if (firstToken s).contains ':' then
          (pyLower (pyStrip (splitFirstColon s).1), pyStrip (splitFirstColon s).2)
        else (str "file", s)
      let kind := if kv.1 = [] then str "file" else kv.1
      Link.mk kind kv.2 :: normaliseLinks rest

/-- `_render_task_yml`: the mapping handed to `yaml.safe_dump` with
`sort_keys=False` (the rendered bytes are a deterministic pure function
of this mapping). -/
def renderTaskYml (task_id title : Str) (status : Status)
    (created_s last_touch_s next_action : Str) (links : List Link)
    (format_version : Int) : YamlDict :=
  [(str "id", .vStr task_id),
   (str "title", .vStr title),
   (str "status", .vStr status.value),
   (str "created", .vStr created_s),
   (str "last_touch", .vStr last_touch_s),
   (str "next_action", .vStr next_action),
   (str "format", .vInt format_version),
   (str "links", .vList (links.map (fun ln =>
     .vMap [(str "kind", .vStr ln.kind), (str "value", .vStr ln.value)])))]

/-- `create_task` after `ensure_tasks_dir` and `mkdir` succeed: the task
id and file set written for the request, given today's date and the
store's existing entries (used for the sequence number). -/
def createTask (today : Date) (req : NewTaskRequest)
    (storeEntries : List (Str × Bool)) : Str × TaskDirFiles :=
  let seq := nextTaskSeq true storeEntries today
  let slug := slugify req.title
  let task_id := today.isoformat ++ str "__" ++ pad3 seq.toNat ++ str "__" ++ slug
  let next_action := if req.status = .done then [] else pyStrip req.next_action
  let created_s := today.isoformat
  let yml := renderTaskYml task_id req.title req.status created_s created_s
    next_action (normaliseLinks req.links) 2
  let logLines :=
    [created_s ++ str ": [created]"] ++
    (if req.status = .done then [created_s ++ str ": [done]"] else [])
  let summaryTrimmed := pyRstrip req.summary
  (task_id,
   { ymlFile := some (.vMap yml),
     logFile := some logLines,
     summaryFile := if summaryTrimmed = [] then none else some (summaryTrimmed ++ ['\n']) })

/-- `write_task`: full re-render of the file set; fails when the task
directory does not exist (`existingDir = none`).  The prior contents are
never read: `task.yml` and `task.log` are overwritten, and `summary.md`
ends up present iff the in-memory summary is non-empty after `rstrip`
(an existing file is deleted otherwise). -/
def writeTask (existingDir : Option TaskDirFiles) (task : Task) :
    Except Str TaskDirFiles :=
  match existingDir with
  | none => .error (str "Task directory not found")
  | some _ =>
    .ok
      { ymlFile := some (.vMap (renderTaskYml task.task_id task.title task.status
          task.created.isoformat task.last_touch.isoformat task.next_action
          task.links 2)),
        logFile := some ((task.log_lines.filter (fun l => decide (pyStrip l ≠ []))).map pyRstrip),
        summaryFile :=
          let summary := pyRstrip task.summary
          if summary = [] then none else some (summary ++ ['\n']) }

-- -------------------------------------------------------------------
-- Scanner (engine/scan.py)
-- -------------------------------------------------------------------

/-- A filesystem subtree: directories with children, or plain files. -/
inductive FsNode where
  | dir (name : Str) (children : List FsNode)
  | file (name : Str)

/-- Entry name. -/
def FsNode.name : FsNode → Str
  | .dir n _ => n
  | .file n => n

/-- `is_dir()`. -/
def FsNode.isDir : FsNode → Bool
  | .dir _ _ => true
  | .file _ => false

/-- Children of a directory (files have none). -/
def FsNode.children : FsNode → List FsNode
  | .dir _ cs => cs
  | .file _ => []

/-- `(d / ".tasks").is_dir()`. -/
def hasTasksStore (n : FsNode) : Bool :=
  n.children.any (fun c => c.isDir && c.name == str ".tasks")

mutual

/-- The inner `walk_dir(d, depth)` of `iter_projects`, yielding project
root paths relative to `d` (so `[]` is `d` itself).  `walk_dir` is only
ever applied to directories, and this model has no permission errors. -/
def walkDir : FsNode → Int → Int → List (List Str)
  | .file _, _, _ => []
  | .dir nm cs, depth, level =>
    (if (FsNode.dir nm cs).children.any (fun c => c.isDir && c.name == str ".tasks")
     then [([] : List Str)] else []) ++
    (if depth ≥ level then [] else walkChildren cs depth level)

/-- Recursion of `walk_dir` over the children: skip non-directories and
the `.tasks` entry, descend one level deeper into the rest. -/
def walkChildren : List FsNode → Int → Int → List (List Str)
  | [], _, _ => []
  | c :: rest, depth, level =>
    (if c.isDir && !(c.name == str ".tasks")
     then (walkDir c (depth + 1) level).map (fun p => c.name :: p)
     else []) ++
    walkChildren rest depth level

end

/-- `iter_projects(root, level)`, yielding project root paths as segment
lists relative to `root`. -/
def iterProjects (root : FsNode) (level : Int) : List (List Str) :=
  if level < 0 then [] else walkDir root 0 level

/-- Reachability along the scanner's recursion: `WalkTo n p m` holds when
starting at `n` and following the child-directory segments `p` (each an
existing child directory not named `.tasks`) arrives at `m`. -/
inductive WalkTo : FsNode → List Str → FsNode → Prop where
  | here (n : FsNode) : WalkTo n [] n
  | child (n c : FsNode) (p : List Str) (m : FsNode) :
      c ∈ n.children → c.isDir = true → c.name ≠ str ".tasks" →
      WalkTo c p m → WalkTo n (c.name :: p) m

-- -------------------------------------------------------------------
-- Validator link checks (engine/validate.py)
-- -------------------------------------------------------------------

/-- A validation issue (`validate.ValidationIssue`). -/
structure ValidationIssue where
  code : Str
  message : Str
deriving DecidableEq, Repr

/-- Python `s.split(sep)` on a single character, every occurrence. -/
def splitAllChar (sep : Char) : Str → List Str
  | [] => [[]]
  | c :: rest =>
    let r := splitAllChar sep rest
    if c == sep then [] :: r
    else
      match r with
      | h :: t => (c :: h) :: t
      | [] => [[c]]

/-- `(root / rel).resolve()` over an already-resolved absolute root given
as path segments: empty and `.` segments vanish, `..` pops (staying at
the filesystem root), an absolute `rel` discards `root`.  Symlinks are
not modelled. -/
def resolvePath (root : List Str) (rel : Str) : List Str :=
  let segs := splitAllChar '/' rel
  let start := if rel.head? = some '/' then [] else root
  segs.foldl (fun acc seg =>
    if seg = [] ∨ seg = str "." then acc
    else if seg = str ".." then acc.dropLast
    else acc ++ [seg]) start

/-- `_check_file_links_exist`: `root` is the resolved project root as
path segments and `fsExists` models on-disk existence.
`target.relative_to(root)` succeeds exactly when `root` is a segment
prefix of `target`. -/
def checkFileLinksExist (links : List Link) (root : List Str)
    (fsExists : List Str → Bool) : List ValidationIssue :=
  match links with
  | [] => []
  | link :: rest =>
    if pyLower (pyStrip link.kind) ≠ str "file" then
      checkFileLinksExist rest root fsExists
    else
      let rel := pyStrip link.value
      let target := resolvePath root rel
      if !(root.isPrefixOf target) then
        ValidationIssue.mk (str "link_file_outside_project")
            (str "File link points outside project root: " ++ rel) ::
          checkFileLinksExist rest root fsExists
      else if !(fsExists target) then
        ValidationIssue.mk (str "link_file_missing")
            (str "Missing linked file: " ++ rel) ::
          checkFileLinksExist rest root fsExists
      else
        checkFileLinksExist rest root fsExists

-- -------------------------------------------------------------------
-- Actions (engine/actions.py)
-- -------------------------------------------------------------------

/-- Operational errors raised by actions: `validate.ValidationError` and
the writer's `FileNotFoundError`. -/
inductive ActErr where
  | validation (msg : Str)
  | fileNotFound (msg : Str)
deriving DecidableEq, Repr

/-- `_require_non_empty`: use the supplied value when non-blank, else
prompt once (`promptedInput = none` models EOF). -/
def requireNonEmpty (value : Option Str) (promptedInput : Option Str)
    (prompt : Str) : Except ActErr Str :=
  let fromPrompt : Except ActErr Str :=
    match promptedInput with
    | none => .error (.validation (prompt ++ str " is required"))
    | some inp =>
      if pyStrip inp = [] then .error (.validation (prompt ++ str " is required"))
      else .ok (pyStrip inp)
  match value with
  | some v => if pyStrip v = [] then fromPrompt else .ok (pyStrip v)
  | none => fromPrompt

/-- `_append_log`: append the dated entry and update `last_touch`. -/
def appendLog (t : Task) (today : Date) (entry : Str) : Task :=
  { t with
    log_lines := t.log_lines ++ [today.isoformat ++ str ": " ++ entry],
    last_touch := today }

/-- `set_next_action`: forbidden on done tasks; otherwise requires a
message and a next action, overwrites `next_action`, appends a `[next]`
log entry and persists via the writer.  The returned pair is the mutated
task and the rewritten file set; an `.error` outcome leaves both the
caller's task and the on-disk files untouched. -/
def setNextAction (t : Task) (dirFiles : Option TaskDirFiles) (today : Date)
    (next_action message : Option Str) (msgInput naInput : Option Str) :
    Except ActErr (Task × TaskDirFiles) :=
  if t.status = .done then
    .error (.validation (str "Cannot set next action on done task"))
  else do
    let msg ← requireNonEmpty message msgInput (str "Message")
    let na ← requireNonEmpty next_action naInput (str "Next action")
    let t2 := appendLog { t with next_action := na } today
      (str "[next] " ++ na ++ str " - " ++ msg)
    match writeTask dirFiles t2 with
    | .ok files => .ok (t2, files)
    | .error m => .error (.fileNotFound m)

-- -------------------------------------------------------------------
-- Claim-as-written reference definitions (from the spec's words, for
-- refinement comparison against the source embeddings)
-- -------------------------------------------------------------------

/-- Claim C6 as written: a non-empty string entry is split on its first
colon whenever the string contains a colon anywhere; otherwise the whole
string is the value and the kind defaults to `file`. -/
def claimLinkOfString (s : Str) : Link :=
  if s.contains ':' then
    Link.mk (pyLower (pyStrip (splitFirstColon s).1)) (pyStrip (splitFirstColon s).2)
  else Link.mk (str "file") s

/-- The per-entry string rule the code actually implements (the amended
C6): the split happens only when the first whitespace-delimited token of
the stripped string contains a colon. -/
def specLinkOfString (s : Str) : Link :=
  if (firstToken s).contains ':' then
    Link.mk (pyLower (pyStrip (splitFirstColon s).1)) (pyStrip (splitFirstColon s).2)
  else Link.mk (str "file") s

/-- The amended C6 link-extraction rule, written from the spec's words:
blank strings are skipped, non-blank strings follow `specLinkOfString`
on their stripped form, mappings require string `kind` and `value`
(trimmed, kind lowercased), and any other shape is a `ParseError` naming
the 1-based index. -/
def specParseLinksLoop (path : Str) (items : List YamlValue) (i : Nat) :
    Except PError (List Link) :=
  match items with
  | [] => .ok []
  | .vStr s0 :: rest =>
    if pyStrip s0 = [] then specParseLinksLoop path rest (i + 1)
    else (specParseLinksLoop path rest (i + 1)).map
      (fun ls => specLinkOfString (pyStrip s0) :: ls)
  | .vMap m :: rest =>
    match dictGet m (str "kind"), dictGet m (str "value") with
    | some (.vStr k), some (.vStr v) =>
      (specParseLinksLoop path rest (i + 1)).map
        (fun ls => Link.mk (pyLower (pyStrip k)) (pyStrip v) :: ls)
    | _, _ => .error (.linkBadMapping path i)
  | _ :: _ => .error (.linkBadShape path i)

/-- The integer second `__`-segments found by the sequence-number scan:
for each store entry that is a directory whose name starts with
`<date>__`, the parsed integer between the first and second `__`. -/
def seqCandidates (entries : List (Str × Bool)) (created : Date) : List Int :=
  entries.filterMap (fun e =>
    if e.2 && (created.isoformat ++ str "__").isPrefixOf e.1 then
      (if 2 ≤ (pySplit2 (str "__") e.1).length then
        pyInt ((pySplit2 (str "__") e.1).getD 1 ([] : Str))
      else none)
    else none)

/-- Claim C4 as written: one more than the maximum integer second
segment among matching subdirectories (non-numeric segments ignored),
and 1 when no such segment exists or the store is absent. -/
def claimNextSeq (storeIsDir : Bool) (entries : List (Str × Bool)) (created : Date) : Int :=
  if !storeIsDir then 1
  else
    match seqCandidates entries created with
    | [] => 1
    | v :: rest => (rest.foldl max v) + 1

-- ===================================================================
-- Theorems
-- ===================================================================

theorem date_leB_eq_not_ltB (a b : Date) : Date.leB a b = !Date.ltB b a := by
  obtain ⟨ay, am, ad⟩ := a
  obtain ⟨cy, cm, cd⟩ := b
  rw [Bool.eq_iff_iff]
  simp only [Date.leB, Date.ltB, Bool.or_eq_true, Bool.and_eq_true,
    decide_eq_true_eq, beq_iff_eq, Bool.not_eq_true', Bool.or_eq_false_iff,
    Bool.and_eq_false_iff, decide_eq_false_iff_not, beq_eq_false_iff_ne,
    Date.mk.injEq, not_lt, ne_eq]
  constructor
  · rintro (h | ⟨h1, h2, h3⟩) <;> omega
  · intro h
    omega

theorem aux_validate_ok_iff (t : Task) :
    t.validate = .ok () ↔
      (pyStrip t.task_id ≠ [] ∧ pyStrip t.title ≠ [] ∧
       Date.leB t.created t.last_touch = true ∧
       (t.status = .done → pyStrip t.next_action = []) ∧
       (t.status ≠ .done → pyStrip t.next_action ≠ [])) := by
  simp only [Task.validate]
  split_ifs with h1 h2 h3 h4 h5 h6
  · refine iff_of_false (by simp) ?_
    rintro ⟨hA, -⟩
    rcases h1 with h | h
    · rw [h] at hA
      exact hA rfl
    · exact hA h
  · refine iff_of_false (by simp) ?_
    rintro ⟨-, hB, -⟩
    rcases h2 with h | h
    · rw [h] at hB
      exact hB rfl
    · exact hB h
  · refine iff_of_false (by simp) ?_
    rintro ⟨-, -, hC, -⟩
    rw [date_leB_eq_not_ltB, h3] at hC
    exact absurd hC (by simp)
  · refine iff_of_false (by simp) ?_
    rintro ⟨-, -, -, hD, -⟩
    exact h5 (hD h4)
  · refine iff_of_true rfl ?_
    refine ⟨(not_or.mp h1).2, (not_or.mp h2).2, ?_, fun _ => not_ne_iff.mp h5, fun hne => absurd h4 hne⟩
    rw [date_leB_eq_not_ltB, Bool.not_eq_true' .. |>.mpr (Bool.not_eq_true _ |>.mp h3)]
  · refine iff_of_false (by simp) ?_
    rintro ⟨-, -, -, -, hE⟩
    exact hE h4 h6
  · refine iff_of_true rfl ?_
    refine ⟨(not_or.mp h1).2, (not_or.mp h2).2, ?_, fun hd => absurd hd h4, fun _ => h6⟩
    rw [date_leB_eq_not_ltB, Bool.not_eq_true' .. |>.mpr (Bool.not_eq_true _ |>.mp h3)]

/-- C1: for every Task, `validate()` succeeds iff task_id and title are
non-empty after trimming, created is at most last_touch, a done task has
an empty trimmed next_action and a non-done task a non-empty one; any
failing conjunct makes `validate()` raise. -/
theorem claim_C1 (t : Task) :
    t.validate = .ok () ↔
      (pyStrip t.task_id ≠ [] ∧ pyStrip t.title ≠ [] ∧
       Date.leB t.created t.last_touch = true ∧
       (t.status = .done → pyStrip t.next_action = []) ∧
       (t.status ≠ .done → pyStrip t.next_action ≠ [])) :=
  aux_validate_ok_iff t

/-- C3: `write` is idempotent at the byte level — writing the same
unchanged Task into the (now existing) directory a second time yields
exactly the same `task.yml` mapping, `task.log` lines and `summary.md`
contents (the rendered bytes are a deterministic function of these). -/
theorem claim_C3 (d0 : TaskDirFiles) (t : Task) (d1 : TaskDirFiles)
    (h : writeTask (some d0) t = .ok d1) : writeTask (some d1) t = .ok d1 := by
  have hsame : writeTask (some d1) t = writeTask (some d0) t := rfl
  rw [hsame, h]

theorem claim_C3_witness :
    writeTask (some (TaskDirFiles.mk none none none))
        (Task.mk (str "t1") (str "T") .active ⟨2024, 1, 1⟩ ⟨2024, 1, 2⟩ (str "go")
          [] [str "2024-01-01: [created]"] [] 2) =
      .ok (TaskDirFiles.mk
        (some (.vMap (renderTaskYml (str "t1") (str "T") .active
          (Date.isoformat ⟨2024, 1, 1⟩) (Date.isoformat ⟨2024, 1, 2⟩) (str "go") [] 2)))
        (some [str "2024-01-01: [created]"]) none) ∧
    writeTask (some (TaskDirFiles.mk
        (some (.vMap (renderTaskYml (str "t1") (str "T") .active
          (Date.isoformat ⟨2024, 1, 1⟩) (Date.isoformat ⟨2024, 1, 2⟩) (str "go") [] 2)))
        (some [str "2024-01-01: [created]"]) none))
        (Task.mk (str "t1") (str "T") .active ⟨2024, 1, 1⟩ ⟨2024, 1, 2⟩ (str "go")
          [] [str "2024-01-01: [created]"] [] 2) =
      .ok (TaskDirFiles.mk
        (some (.vMap (renderTaskYml (str "t1") (str "T") .active
          (Date.isoformat ⟨2024, 1, 1⟩) (Date.isoformat ⟨2024, 1, 2⟩) (str "go") [] 2)))
        (some [str "2024-01-01: [created]"]) none) :=
  ⟨rfl, claim_C3 (TaskDirFiles.mk none none none) _ _ rfl⟩

/-- C8: `set_next_action` on a done task fails with the
forbidden-transition error whatever message, next_action and prompt
inputs are supplied; the action returns no mutated task/file pair, so in
the functional model the caller's Task and the on-disk files are exactly
the ones it started with (the write is only reached on success). -/
theorem claim_C8 (t : Task) (dirFiles : Option TaskDirFiles) (today : Date)
    (next_action message msgInput naInput : Option Str) (h : t.status = .done) :
    setNextAction t dirFiles today next_action message msgInput naInput =
      .error (.validation (str "Cannot set next action on done task")) := by
  simp [setNextAction, h]

theorem claim_C8_witness :
    setNextAction
        (Task.mk (str "t1") (str "T") .done ⟨2024, 1, 1⟩ ⟨2024, 1, 2⟩ []
          [] [str "2024-01-01: [created]"] [] 2)
        none ⟨2024, 1, 3⟩ (some (str "next step")) (some (str "msg")) none none =
      .error (.validation (str "Cannot set next action on done task")) :=
  claim_C8 _ none ⟨2024, 1, 3⟩ (some (str "next step")) (some (str "msg")) none none rfl

/-- The claim C4 predicted value and the code's value disagree on a
store entry whose second segment is the negative integer `-5`: the code
never lets `best` drop below 0, so it returns 1, while "one more than
the maximum integer second segment" would be -4. -/
theorem claim_C4_counterexample :
    nextTaskSeq true [(str "2024-01-01__-5__x", true)] ⟨2024, 1, 1⟩ = 1 ∧
    claimNextSeq true [(str "2024-01-01__-5__x", true)] ⟨2024, 1, 1⟩ = -4 := by
  constructor <;> rfl

theorem seqFold_eq_max (created : Date) (es : List (Str × Bool)) (best : Int) :
    es.foldl (fun best e =>
      if !e.2 then best
      else if !((created.isoformat ++ str "__").isPrefixOf e.1) then best
      else
        let parts := pySplit2 (str "__") e.1
        if parts.length < 2 then best
        else
          match pyInt (parts.getD 1 []) with
          | some n => if n > best then n else best
          | none => best) best =
      (seqCandidates es created).foldl max best := by
  induction es generalizing best with
  | nil => rfl
  | cons e es ih =>
    simp only [List.foldl_cons, seqCandidates, List.filterMap_cons]
    by_cases hb : e.2 = true
    · by_cases hp : (created.isoformat ++ str "__").isPrefixOf e.1 = true
      · by_cases hl : (pySplit2 (str "__") e.1).length < 2
        · have hguard : ¬(2 ≤ (pySplit2 (str "__") e.1).length) := by omega
          simp only [hb, hp, hl, hguard, Bool.not_true, Bool.and_self,
            if_true, if_false, ite_true, ite_false, Bool.false_eq_true,
            if_neg hguard]
          simpa [seqCandidates] using ih best
        · have hguard : 2 ≤ (pySplit2 (str "__") e.1).length := by omega
          cases hn : pyInt ((pySplit2 (str "__") e.1).getD 1 []) with
          | none =>
            simp only [hb, hp, hl, hguard, hn, Bool.not_true, Bool.and_self,
              if_true, ite_false, if_pos hguard, ite_true]
            simpa [seqCandidates] using ih best
          | some n =>
            simp only [hb, hp, hl, hguard, hn, Bool.not_true, Bool.and_self,
              if_true, ite_false, if_pos hguard, ite_true, List.foldl_cons]
            have hmax : (if n > best then n else best) = max best n := by
              rcases le_or_lt n best with h | h
              · rw [if_neg (by omega), max_eq_left h]
              · rw [if_pos h, max_eq_right (le_of_lt h)]
            rw [hmax]
            simpa [seqCandidates] using ih (max best n)
      · simp only [hb, hp, Bool.not_true, Bool.and_self, ite_false, if_true,
          Bool.not_false, ite_true, Bool.false_eq_true, Bool.and_false]
        simpa [seqCandidates] using ih best
    · have hb' : e.2 = false := by simpa using hb
      simp only [hb', Bool.not_false, ite_true, Bool.false_and,
        Bool.false_eq_true, if_false]
      simpa [seqCandidates] using ih best

/-- C4 (amended): the next-sequence-number operation returns one more
than the maximum of 0 and the integer second `__`-segments of matching
subdirectories — a negative integer segment is effectively ignored, so
with only such segments the result is 1 (unlike "one more than the
maximum integer segment", which the counterexample refutes); it returns
1 when the store is absent. -/
theorem claim_C4_amended (storeIsDir : Bool) (entries : List (Str × Bool))
    (created : Date) :
    nextTaskSeq storeIsDir entries created =
      if storeIsDir then ((seqCandidates entries created).foldl max 0) + 1 else 1 := by
  cases storeIsDir with
  | false => rfl
  | true =>
    simp only [nextTaskSeq, Bool.not_true, Bool.false_eq_true, if_false, if_true]
    rw [seqFold_eq_max]

/-- The claim C6 rule ("split on the first colon whenever the string
contains one") disagrees with the code on `"a b:c"`: the code splits
only when the FIRST whitespace-delimited token contains a colon, so here
it keeps the whole string as the value with kind `file`, while the
claim's rule would give kind `a b` and value `c`. -/
theorem claim_C6_counterexample :
    parseLinksLoop (str "p") [.vStr (str "a b:c")] 1 =
      .ok [Link.mk (str "file") (str "a b:c")] ∧
    claimLinkOfString (pyStrip (str "a b:c")) = Link.mk (str "a b") (str "c") ∧
    Link.mk (str "file") (str "a b:c") ≠ Link.mk (str "a b") (str "c") := by
  refine ⟨rfl, rfl, by decide⟩

/-- C6 (amended): for every links entry, a non-empty string is split on
its first colon only when the first whitespace-delimited token of the
trimmed string contains a colon (kind trimmed and lowercased, value
trimmed); otherwise the whole trimmed string becomes the value and the
kind defaults to `file`; blank strings are skipped; mapping entries
require string `kind` and `value`; any other shape is a ParseError
naming the 1-based index.  Stated as: the parser's loop coincides with
`specParseLinksLoop`, the amended rule written out. -/
theorem claim_C6_amended (path : Str) (items : List YamlValue) (i : Nat) :
    parseLinksLoop path items i = specParseLinksLoop path items i := by
  induction items generalizing i with
  | nil => rfl
  | cons item rest ih =>
    cases item with
    | vStr s0 =>
      simp only [parseLinksLoop, specParseLinksLoop, specLinkOfString, ih]
    | vMap m =>
      simp only [parseLinksLoop, specParseLinksLoop, ih]
    | vNull => rfl
    | vInt n => rfl
    | vDate d => rfl
    | vList xs => rfl

/-- C9: with `check_links` on and a project root given, each link
contributes issues independently: a non-file link contributes nothing; a
file link whose value resolves outside the project root contributes
exactly the `link_file_outside_project` issue (in particular no
`link_file_missing` issue arises from it); a file link resolving inside
the root but absent on disk contributes exactly `link_file_missing`; an
existing inside link contributes nothing. -/
theorem claim_C9 (links : List Link) (root : List Str)
    (fsExists : List Str → Bool) :
    checkFileLinksExist links root fsExists =
      (links.map (fun link =>
        if pyLower (pyStrip link.kind) ≠ str "file" then []
        else if !(root.isPrefixOf (resolvePath root (pyStrip link.value))) then
          [ValidationIssue.mk (str "link_file_outside_project")
            (str "File link points outside project root: " ++ pyStrip link.value)]
        else if !(fsExists (resolvePath root (pyStrip link.value))) then
          [ValidationIssue.mk (str "link_file_missing")
            (str "Missing linked file: " ++ pyStrip link.value)]
        else [])).flatten := by
  induction links with
  | nil => rfl
  | cons link rest ih =>
    simp only [checkFileLinksExist, List.map_cons, List.flatten_cons]
    split_ifs with h1 h2 h3 <;> simp [ih]

theorem except_map_ok_iff {ε α β : Type _} (f : α → β) (e : Except ε α) (b : β) :
    e.map f = .ok b ↔ ∃ a, e = .ok a ∧ f a = b := by
  cases e <;> simp [Except.map]

theorem parseLinksLoop_ok_idx (path : Str) (items : List YamlValue) :
    ∀ i j ls, parseLinksLoop path items i = .ok ls ↔
      parseLinksLoop path items j = .ok ls := by
  induction items with
  | nil => intro i j ls; exact Iff.rfl
  | cons item rest ih =>
    intro i j ls
    cases item with
    | vStr s0 =>
      by_cases hblank : pyStrip s0 = []
      · simp only [parseLinksLoop, if_pos hblank]
        exact ih (i + 1) (j + 1) ls
      · simp only [parseLinksLoop, if_neg hblank, except_map_ok_iff]
        constructor
        · rintro ⟨a, ha, rfl⟩
          exact ⟨a, (ih (i + 1) (j + 1) a).mp ha, rfl⟩
        · rintro ⟨a, ha, rfl⟩
          exact ⟨a, (ih (i + 1) (j + 1) a).mpr ha, rfl⟩
    | vMap m =>
      cases hk : dictGet m (str "kind") with
      | none => simp [parseLinksLoop, hk]
      | some vk =>
        cases hv : dictGet m (str "value") with
        | none => cases vk <;> simp [parseLinksLoop, hk, hv]
        | some vv =>
          cases vk with
          | vStr k =>
            cases vv with
            | vStr v =>
              simp only [parseLinksLoop, hk, hv, except_map_ok_iff]
              constructor
              · rintro ⟨a, ha, rfl⟩
                exact ⟨a, (ih (i + 1) (j + 1) a).mp ha, rfl⟩
              · rintro ⟨a, ha, rfl⟩
                exact ⟨a, (ih (i + 1) (j + 1) a).mpr ha, rfl⟩
            | vNull => simp [parseLinksLoop, hk, hv]
            | vInt n => simp [parseLinksLoop, hk, hv]
            | vDate d => simp [parseLinksLoop, hk, hv]
            | vList zs => simp [parseLinksLoop, hk, hv]
            | vMap mm => simp [parseLinksLoop, hk, hv]
          | vNull => cases vv <;> simp [parseLinksLoop, hk, hv]
          | vInt n => cases vv <;> simp [parseLinksLoop, hk, hv]
          | vDate d => cases vv <;> simp [parseLinksLoop, hk, hv]
          | vList zs => cases vv <;> simp [parseLinksLoop, hk, hv]
          | vMap mm => cases vv <;> simp [parseLinksLoop, hk, hv]
    | vNull => simp [parseLinksLoop]
    | vInt n => simp [parseLinksLoop]
    | vDate d => simp [parseLinksLoop]
    | vList zs => simp [parseLinksLoop]

theorem normaliseLinks_skip_blank (w : Str) (hw : pyStrip w = []) :
    ∀ la lb : List Str, normaliseLinks (la ++ w :: lb) = normaliseLinks (la ++ lb) := by
  intro la lb
  induction la with
  | nil =>
    simp only [List.nil_append, normaliseLinks, if_pos hw]
  | cons raw rest ih =>
    simp only [List.cons_append, normaliseLinks, List.append_eq, ih]

/-- C10: a links entry that is an empty or whitespace-only string is
silently skipped by both the parser's link extraction (no Link, no
error, successful outputs unchanged) and the creation-request link
normalisation (output list unchanged). -/
theorem claim_C10 (path w : Str) (h : pyStrip w = []) (xs ys : List YamlValue)
    (i : Nat) (ls : List Link) (la lb : List Str) :
    (parseLinksLoop path (xs ++ YamlValue.vStr w :: ys) i = .ok ls ↔
      parseLinksLoop path (xs ++ ys) i = .ok ls) ∧
    normaliseLinks (la ++ w :: lb) = normaliseLinks (la ++ lb) := by
  refine ⟨?_, normaliseLinks_skip_blank w h la lb⟩
  induction xs generalizing i ls with
  | nil =>
    simp only [List.nil_append, parseLinksLoop, if_pos h]
    exact parseLinksLoop_ok_idx path ys (i + 1) i ls
  | cons item rest ih =>
    cases item with
    | vStr s0 =>
      by_cases hblank : pyStrip s0 = []
      · simp only [List.cons_append, parseLinksLoop, if_pos hblank]
        exact ih (i + 1) ls
      · simp only [List.cons_append, parseLinksLoop, if_neg hblank, except_map_ok_iff]
        constructor
        · rintro ⟨a, ha, rfl⟩
          exact ⟨a, (ih (i + 1) a).mp ha, rfl⟩
        · rintro ⟨a, ha, rfl⟩
          exact ⟨a, (ih (i + 1) a).mpr ha, rfl⟩
    | vMap m =>
      cases hk : dictGet m (str "kind") with
      | none => simp [List.cons_append, parseLinksLoop, hk]
      | some vk =>
        cases hv : dictGet m (str "value") with
        | none => cases vk <;> simp [List.cons_append, parseLinksLoop, hk, hv]
        | some vv =>
          cases vk with
          | vStr k =>
            cases vv with
            | vStr v =>
              simp only [List.cons_append, parseLinksLoop, hk, hv, except_map_ok_iff]
              constructor
              · rintro ⟨a, ha, rfl⟩
                exact ⟨a, (ih (i + 1) a).mp ha, rfl⟩
              · rintro ⟨a, ha, rfl⟩
                exact ⟨a, (ih (i + 1) a).mpr ha, rfl⟩
            | vNull => simp [List.cons_append, parseLinksLoop, hk, hv]
            | vInt n => simp [List.cons_append, parseLinksLoop, hk, hv]
            | vDate d => simp [List.cons_append, parseLinksLoop, hk, hv]
            | vList zs => simp [List.cons_append, parseLinksLoop, hk, hv]
            | vMap mm => simp [List.cons_append, parseLinksLoop, hk, hv]
          | vNull => cases vv <;> simp [List.cons_append, parseLinksLoop, hk, hv]
          | vInt n => cases vv <;> simp [List.cons_append, parseLinksLoop, hk, hv]
          | vDate d => cases vv <;> simp [List.cons_append, parseLinksLoop, hk, hv]
          | vList zs => cases vv <;> simp [List.cons_append, parseLinksLoop, hk, hv]
          | vMap mm => cases vv <;> simp [List.cons_append, parseLinksLoop, hk, hv]
    | vNull => simp [List.cons_append, parseLinksLoop]
    | vInt n => simp [List.cons_append, parseLinksLoop]
    | vDate d => simp [List.cons_append, parseLinksLoop]
    | vList zs => simp [List.cons_append, parseLinksLoop]

theorem claim_C10_witness :
    (parseLinksLoop (str "p") ([] ++ YamlValue.vStr (str "  ") :: [YamlValue.vStr (str "u: v")]) 1 =
        .ok [Link.mk (str "u") (str "v")] ↔
      parseLinksLoop (str "p") ([] ++ [YamlValue.vStr (str "u: v")]) 1 =
        .ok [Link.mk (str "u") (str "v")]) ∧
    normaliseLinks ([str "a"] ++ str "  " :: [str "b"]) =
      normaliseLinks ([str "a"] ++ [str "b"]) :=
  claim_C10 (str "p") (str "  ") (by decide) [] [YamlValue.vStr (str "u: v")] 1
    [Link.mk (str "u") (str "v")] [str "a"] [str "b"]

/-- C7: whenever the parser succeeds on a metadata mapping, the
resulting Task's `format_version` is the value of the `format` key when
that value is an integer (including YAML booleans, since Python `bool`
is a subclass of `int`), and 2 when the key is absent or of any other
type. -/
theorem claim_C7 (dpath : Str) (files : TaskDirFiles) (expected : Option Str)
    (m : YamlDict) (task : Task) (hyml : files.ymlFile = some (.vMap m))
    (hok : parseTask dpath files expected = .ok task) :
    task.format_version =
      (match dictGet m (str "format") with
        | some (.vInt n) => n
        | some _ => 2
        | none => 2) := by
  unfold parseTask at hok
  rw [hyml] at hok
  simp only [bind, Except.bind] at hok
  repeat' split at hok
  all_goals try exact Except.noConfusion hok
  all_goals injection hok with h
  all_goals subst h
  all_goals simp only [optionalIntField]

theorem claim_C7_witness :
    (Task.mk (str "t1") (str "T") .active ⟨2024, 1, 1⟩ ⟨2024, 1, 1⟩ (str "go")
        [] [str "2024-01-01: [created]"] [] 2).format_version =
      (match dictGet
          [(str "id", .vStr (str "t1")), (str "title", .vStr (str "T")),
           (str "status", .vStr (str "active")),
           (str "created", .vStr (str "2024-01-01")),
           (str "last_touch", .vStr (str "2024-01-01")),
           (str "next_action", .vStr (str "go")),
           (str "format", .vStr (str "oops"))] (str "format") with
        | some (.vInt n) => n
        | some _ => 2
        | none => 2) :=
  claim_C7 (str "d")
    (TaskDirFiles.mk
      (some (.vMap [(str "id", .vStr (str "t1")), (str "title", .vStr (str "T")),
        (str "status", .vStr (str "active")),
        (str "created", .vStr (str "2024-01-01")),
        (str "last_touch", .vStr (str "2024-01-01")),
        (str "next_action", .vStr (str "go")),
        (str "format", .vStr (str "oops"))]))
      (some [str "2024-01-01: [created]"]) none)
    none
    [(str "id", .vStr (str "t1")), (str "title", .vStr (str "T")),
     (str "status", .vStr (str "active")),
     (str "created", .vStr (str "2024-01-01")),
     (str "last_touch", .vStr (str "2024-01-01")),
     (str "next_action", .vStr (str "go")),
     (str "format", .vStr (str "oops"))]
    (Task.mk (str "t1") (str "T") .active ⟨2024, 1, 1⟩ ⟨2024, 1, 1⟩ (str "go")
      [] [str "2024-01-01: [created]"] [] 2)
    rfl rfl

theorem fsNode_sizeOf_pos (n : FsNode) : 0 < sizeOf n := by
  cases n <;> simp_arith

theorem walkTo_nil_iff (n m : FsNode) : WalkTo n [] m ↔ m = n := by
  constructor
  · intro h
    cases h
    rfl
  · rintro rfl
    exact .here _

theorem walkTo_cons_iff (n m : FsNode) (a : Str) (q : List Str) :
    WalkTo n (a :: q) m ↔
      ∃ c, c ∈ n.children ∧ c.isDir = true ∧ c.name ≠ str ".tasks" ∧
        c.name = a ∧ WalkTo c q m := by
  constructor
  · intro h
    cases h with
    | child n c p m hmem hdir hname hw => exact ⟨c, hmem, hdir, hname, rfl, hw⟩
  · rintro ⟨c, hmem, hdir, hname, rfl, hw⟩
    exact .child n c q m hmem hdir hname hw

theorem walkChildren_mem (cs : List FsNode) (depth level : Int) (p : List Str) :
    p ∈ walkChildren cs depth level ↔
      ∃ c ∈ cs, (c.isDir = true ∧ c.name ≠ str ".tasks") ∧
        ∃ q, p = c.name :: q ∧ q ∈ walkDir c (depth + 1) level := by
  induction cs with
  | nil => simp [walkChildren]
  | cons c rest ih =>
    simp only [walkChildren, List.mem_append, ih, List.mem_cons]
    constructor
    · rintro (hhead | ⟨c2, hm, hg, q, rfl, hq⟩)
      · by_cases hguard : (c.isDir && !(c.name == str ".tasks")) = true
        · rw [if_pos hguard] at hhead
          obtain ⟨q, hq, rfl⟩ := List.mem_map.mp hhead
          refine ⟨c, Or.inl rfl, ?_, q, rfl, hq⟩
          simp only [Bool.and_eq_true, Bool.not_eq_true', beq_eq_false_iff_ne, ne_eq] at hguard
          exact ⟨hguard.1, hguard.2⟩
        · rw [if_neg hguard] at hhead
          exact absurd hhead (List.not_mem_nil p)
      · exact ⟨c2, Or.inr hm, hg, q, rfl, hq⟩
    · rintro ⟨c2, hm | hm, hg, q, rfl, hq⟩
      · subst hm
        left
        have hguard : (c2.isDir && !(c2.name == str ".tasks")) = true := by
          simp only [Bool.and_eq_true, Bool.not_eq_true', beq_eq_false_iff_ne, ne_eq]
          exact ⟨hg.1, hg.2⟩
        rw [if_pos hguard]
        exact List.mem_map.mpr ⟨q, hq, rfl⟩
      · exact Or.inr ⟨c2, hm, hg, q, rfl, hq⟩

theorem walkDir_mem_aux (level : Int) :
    ∀ k (n : FsNode), sizeOf n ≤ k → ∀ (depth : Int) (p : List Str),
      (p ∈ walkDir n depth level ↔
        ((p = [] ∨ depth + (p.length : Int) ≤ level) ∧
         ∃ m, WalkTo n p m ∧ hasTasksStore m = true)) := by
  intro k
  induction k with
  | zero =>
    intro n hn
    have hp := fsNode_sizeOf_pos n
    exact absurd hn (by omega)
  | succ k ih =>
    intro n hn depth p
    cases n with
    | file nm =>
      simp only [walkDir, List.not_mem_nil, false_iff, not_and]
      rintro - ⟨m, hw, hm⟩
      cases p with
      | nil =>
        rw [walkTo_nil_iff] at hw
        subst hw
        simp [hasTasksStore, FsNode.children] at hm
      | cons a q =>
        rw [walkTo_cons_iff] at hw
        obtain ⟨c, hmem, -⟩ := hw
        simp [FsNode.children] at hmem
    | dir nm cs =>
      have hsize : ∀ c ∈ cs, sizeOf c ≤ k := by
        intro c hc
        have h1 := List.sizeOf_lt_of_mem hc
        have h2 : sizeOf (FsNode.dir nm cs) = 1 + sizeOf nm + sizeOf cs := by
          simp_arith
        omega
      simp only [walkDir, FsNode.children, List.mem_append]
      cases p with
      | nil =>
        have hleft : ([] : List Str) ∈
            (if cs.any (fun c => c.isDir && c.name == str ".tasks") = true
             then [([] : List Str)] else []) ↔
            cs.any (fun c => c.isDir && c.name == str ".tasks") = true := by
          split_ifs with hc <;> simp [hc]
        have hright : ([] : List Str) ∈
            (if depth ≥ level then [] else walkChildren cs depth level) ↔ False := by
          split_ifs with hc
          · simp
          · simp only [iff_false]
            intro hmem
            obtain ⟨c, -, -, q, hq, -⟩ := (walkChildren_mem cs depth level []).mp hmem
            exact List.noConfusion hq
        rw [hleft, hright, or_false]
        constructor
        · intro h
          refine ⟨Or.inl rfl, FsNode.dir nm cs, WalkTo.here _, ?_⟩
          simpa [hasTasksStore, FsNode.children] using h
        · rintro ⟨-, m, hw, hm⟩
          rw [walkTo_nil_iff] at hw
          subst hw
          simpa [hasTasksStore, FsNode.children] using hm
      | cons a q =>
        have hleft : (a :: q) ∈
            (if cs.any (fun c => c.isDir && c.name == str ".tasks") = true
             then [([] : List Str)] else []) ↔ False := by
          split_ifs with hc <;> simp
        rw [hleft, false_or]
        by_cases hd : depth ≥ level
        · rw [if_pos hd]
          simp only [List.not_mem_nil, false_iff, not_and]
          rintro (h | h) ⟨m, hw, hm⟩
          · exact List.noConfusion h
          · simp only [List.length_cons] at h
            omega
        · rw [if_neg hd, walkChildren_mem]
          constructor
          · rintro ⟨c, hmem, ⟨hdir, hname⟩, q2, heq, hq2⟩
            injection heq with h1 h2
            subst h1
            subst h2
            obtain ⟨hc1, m, hw, hm⟩ :=
              (ih c (hsize c hmem) (depth + 1) q).mp hq2
            refine ⟨?_, m, ?_, hm⟩
            · right
              simp only [List.length_cons]
              rcases hc1 with rfl | hc1
              · simp only [List.length_nil]
                omega
              · push_cast at hc1 ⊢
                omega
            · exact (walkTo_cons_iff _ _ _ _).mpr ⟨c, hmem, hdir, hname, rfl, hw⟩
          · rintro ⟨hc1, m, hw, hm⟩
            obtain ⟨c, hmem, hdir, hname, hn2, hw2⟩ := (walkTo_cons_iff _ _ _ _).mp hw
            refine ⟨c, hmem, ⟨hdir, hname⟩, q, by rw [hn2], ?_⟩
            refine (ih c (hsize c hmem) (depth + 1) q).mpr ⟨?_, m, hw2, hm⟩
            rcases hc1 with h | h
            · exact List.noConfusion h
            · right
              simp only [List.length_cons] at h
              push_cast at h ⊢
              omega

theorem walkDir_mem (level : Int) (n : FsNode) (depth : Int) (p : List Str) :
    p ∈ walkDir n depth level ↔
      ((p = [] ∨ depth + (p.length : Int) ≤ level) ∧
       ∃ m, WalkTo n p m ∧ hasTasksStore m = true) :=
  walkDir_mem_aux level (sizeOf n) n (Nat.le_refl _) depth p

/-- C5: `iter_projects` yields exactly the directories that directly
contain a `.tasks` subdirectory and are reachable from the root (depth
0) through at most `level` child-directory steps that never enter a
`.tasks` directory; `level < 0` yields nothing and `level = 0` admits
only the root itself. -/
theorem claim_C5 (root : FsNode) (level : Int) (p : List Str) :
    p ∈ iterProjects root level ↔
      (0 ≤ level ∧ (p.length : Int) ≤ level ∧
       ∃ m, WalkTo root p m ∧ hasTasksStore m = true) := by
  by_cases hneg : level < 0
  · rw [iterProjects, if_pos hneg]
    simp only [List.not_mem_nil, false_iff, not_and]
    intro h
    omega
  · rw [iterProjects, if_neg hneg, walkDir_mem]
    constructor
    · rintro ⟨hc, m, hw, hm⟩
      refine ⟨by omega, ?_, m, hw, hm⟩
      rcases hc with rfl | hc
      · simp
        omega
      · omega
    · rintro ⟨h0, hlen, m, hw, hm⟩
      exact ⟨Or.inr (by omega), m, hw, hm⟩

-- -------------------------------------------------------------------
-- String toolkit lemmas
-- -------------------------------------------------------------------

theorem dropWhile_idem {α : Type _} (p : α → Bool) (l : List α) :
    (l.dropWhile p).dropWhile p = l.dropWhile p := by
  induction l with
  | nil => rfl
  | cons a t ih =>
    by_cases ha : p a = true
    · rw [List.dropWhile_cons_of_pos ha]
      exact ih
    · rw [List.dropWhile_cons_of_neg (by simp [ha]),
        List.dropWhile_cons_of_neg (by simp [ha])]

theorem pyRstrip_idem (s : Str) : pyRstrip (pyRstrip s) = pyRstrip s := by
  unfold pyRstrip
  rw [List.reverse_reverse, dropWhile_idem]

theorem pyRstrip_eq_self_iff (x : Str) :
    pyRstrip x = x ↔ x.reverse.dropWhile isPySpace = x.reverse := by
  unfold pyRstrip
  constructor
  · intro hx
    have := congrArg List.reverse hx
    rwa [List.reverse_reverse] at this
  · intro hx
    rw [hx, List.reverse_reverse]

theorem pyRstrip_pyLstrip_of_rstripped (y : Str) (h : pyRstrip y = y) :
    pyRstrip (pyLstrip y) = pyLstrip y := by
  rw [pyRstrip_eq_self_iff] at h ⊢
  unfold pyLstrip
  cases hz : y.dropWhile isPySpace with
  | nil => rfl
  | cons c t =>
    obtain ⟨w, hw⟩ := List.dropWhile_suffix (l := y) isPySpace
    rw [hz] at hw
    have hyrev : y.reverse = (c :: t).reverse ++ w.reverse := by
      rw [← hw, List.reverse_append]
    rw [hyrev] at h
    rw [List.dropWhile_append] at h
    split at h
    · exfalso
      have hlen := congrArg List.length h
      have hle := (List.dropWhile_sublist (l := w.reverse) isPySpace).length_le
      simp only [List.length_append, List.length_reverse] at hlen hle
      simp only [List.length_cons] at hlen
      omega
    · exact List.append_cancel_right h

theorem pyStrip_idem (s : Str) : pyStrip (pyStrip s) = pyStrip s := by
  show pyLstrip (pyRstrip (pyLstrip (pyRstrip s))) = pyLstrip (pyRstrip s)
  rw [pyRstrip_pyLstrip_of_rstripped (pyRstrip s) (pyRstrip_idem s)]
  unfold pyLstrip
  exact dropWhile_idem _ _

theorem pyStrip_pyRstrip (s : Str) : pyStrip (pyRstrip s) = pyStrip s := by
  show pyLstrip (pyRstrip (pyRstrip s)) = pyStrip s
  rw [pyRstrip_idem]
  rfl

theorem pyRstrip_append_ws (s : Str) (c : Char) (hc : isPySpace c = true) :
    pyRstrip (s ++ [c]) = pyRstrip s := by
  unfold pyRstrip
  rw [List.reverse_append, List.reverse_singleton, List.singleton_append,
    List.dropWhile_cons_of_pos hc]

theorem pyStrip_append_ws (s : Str) (c : Char) (hc : isPySpace c = true) :
    pyStrip (s ++ [c]) = pyStrip s := by
  show pyLstrip (pyRstrip (s ++ [c])) = pyStrip s
  rw [pyRstrip_append_ws s c hc]
  rfl

theorem pyStrip_summary_file (s : Str) :
    pyStrip (pyRstrip s ++ ['\n']) = pyStrip s := by
  rw [pyStrip_append_ws _ '\n' (by decide), pyStrip_pyRstrip]

theorem pyStrip_eq_nil_of_pyRstrip_eq_nil (s : Str) (h : pyRstrip s = []) :
    pyStrip s = [] := by
  show pyLstrip (pyRstrip s) = []
  rw [h]
  rfl

theorem pyRstrip_append_left (s t : Str) (h : pyRstrip t ≠ []) :
    pyRstrip (s ++ t) = s ++ pyRstrip t := by
  have hne : t.reverse.dropWhile isPySpace ≠ [] := by
    intro hx
    apply h
    unfold pyRstrip
    rw [hx]
    rfl
  unfold pyRstrip
  rw [List.reverse_append, List.dropWhile_append]
  rw [if_neg (by simpa [List.isEmpty_iff] using hne)]
  rw [List.reverse_append, List.reverse_reverse]

theorem pyStrip_eq_nil_iff (s : Str) :
    pyStrip s = [] ↔ ∀ c ∈ s, isPySpace c = true := by
  have halldrop : ∀ (l : List Char),
      (l.dropWhile isPySpace = [] ↔ ∀ c ∈ l, isPySpace c = true) := by
    intro l
    induction l with
    | nil => simp
    | cons a t ih =>
      by_cases ha : isPySpace a = true
      · rw [List.dropWhile_cons_of_pos ha]
        simp [ha, ih]
      · rw [List.dropWhile_cons_of_neg (by simp [ha])]
        simp only [List.mem_cons, iff_false, ne_eq]
        constructor
        · intro hx
          exact List.noConfusion hx
        · intro hall
          exact absurd (hall a (Or.inl rfl)) ha
  constructor
  · intro h c hc
    by_contra hns
    have h1 : pyRstrip s ≠ [] := by
      intro hr
      unfold pyRstrip at hr
      have : s.reverse.dropWhile isPySpace = [] := by
        have := congrArg List.reverse hr
        rwa [List.reverse_reverse] at this
      have := (halldrop s.reverse).mp this c (by simpa using hc)
      exact hns this
    have h2 := (halldrop (pyRstrip s)).mp h
    -- every element of pyRstrip s is whitespace, and pyRstrip s nonempty,
    -- but also c might not be in pyRstrip s; argue via reverse instead
    have h3 : s.reverse.dropWhile isPySpace ≠ [] := by
      intro hx
      apply h1
      unfold pyRstrip
      rw [hx]
      rfl
    -- the head of s.reverse.dropWhile is non-space yet lies in pyRstrip s
    have h4 := List.head_dropWhile_not isPySpace s.reverse h3
    have h5 : (s.reverse.dropWhile isPySpace).head h3 ∈ s.reverse.dropWhile isPySpace :=
      List.head_mem h3
    have h6 : (s.reverse.dropWhile isPySpace).head h3 ∈ pyRstrip s := by
      unfold pyRstrip
      rw [List.mem_reverse]
      exact h5
    have := h2 _ h6
    rw [this] at h4
    exact Bool.noConfusion h4
  · intro hall
    have h1 : pyRstrip s = [] := by
      unfold pyRstrip
      have : s.reverse.dropWhile isPySpace = [] := by
        rw [halldrop]
        intro c hc
        exact hall c (by simpa using hc)
      rw [this]
      rfl
    exact pyStrip_eq_nil_of_pyRstrip_eq_nil s h1

theorem char_toNat_ofNat_lt {n : Nat} (h : n < 55296) : (Char.ofNat n).toNat = n := by
  have hv : n.isValidChar := Or.inl h
  rw [Char.ofNat, dif_pos hv]
  rfl

theorem nat_ws_test_false {m : Nat} (h1 : 48 ≤ m) (h2 : m ≤ 122) :
    ((m == 32) || (m == 9) || (m == 10) || (m == 13) || (m == 11) || (m == 12)) = false := by
  simp only [Bool.or_eq_false_iff, beq_eq_false_iff_ne, ne_eq]
  omega

theorem isPySpace_toLower (c : Char) : isPySpace (Char.toLower c) = isPySpace c := by
  unfold Char.toLower
  dsimp only
  split_ifs with h
  · have h1 : (Char.ofNat (c.toNat + 32)).toNat = c.toNat + 32 :=
      char_toNat_ofNat_lt (by omega)
    unfold isPySpace
    rw [h1]
    rw [nat_ws_test_false (by omega) (by omega), nat_ws_test_false (by omega) (by omega)]
  · rfl

theorem toLower_idem (c : Char) : Char.toLower (Char.toLower c) = Char.toLower c := by
  by_cases h : c.toNat ≥ 65 ∧ c.toNat ≤ 90
  · have houter : Char.toLower c = Char.ofNat (c.toNat + 32) := by
      unfold Char.toLower
      rw [if_pos h]
    rw [houter]
    have h1 : (Char.ofNat (c.toNat + 32)).toNat = c.toNat + 32 :=
      char_toNat_ofNat_lt (by omega)
    unfold Char.toLower
    dsimp only
    rw [if_neg (by rw [h1]; omega)]
  · have houter : Char.toLower c = c := by
      unfold Char.toLower
      rw [if_neg h]
    rw [houter]
    exact houter

theorem pyLower_idem (s : Str) : pyLower (pyLower s) = pyLower s := by
  induction s with
  | nil => rfl
  | cons c t ih =>
    show Char.toLower (Char.toLower c) :: pyLower (pyLower t) = Char.toLower c :: pyLower t
    rw [toLower_idem, ih]

theorem pyStrip_pyLower_comm (s : Str) : pyStrip (pyLower s) = pyLower (pyStrip s) := by
  have hws : (isPySpace ∘ Char.toLower) = isPySpace := funext isPySpace_toLower
  show ((((s.map Char.toLower).reverse.dropWhile isPySpace).reverse).dropWhile isPySpace) =
    (((s.reverse.dropWhile isPySpace).reverse).dropWhile isPySpace).map Char.toLower
  rw [← List.map_reverse, List.dropWhile_map, hws, ← List.map_reverse,
    List.dropWhile_map, hws]

theorem kind_normal_invariant (x : Str) :
    pyLower (pyStrip (pyLower (pyStrip x))) = pyLower (pyStrip x) := by
  rw [pyStrip_pyLower_comm, pyStrip_idem, pyLower_idem]

theorem digitChar_toNat (k : Nat) (h : k < 10) : (digitChar k).toNat = 48 + k :=
  char_toNat_ofNat_lt (by omega)

theorem isPyDigit_digitChar (k : Nat) (h : k < 10) : isPyDigit (digitChar k) = true := by
  unfold isPyDigit
  rw [digitChar_toNat k h]
  simp only [Bool.and_eq_true, decide_eq_true_eq]
  omega

theorem digitVal_digitChar (k : Nat) (h : k < 10) : digitVal (digitChar k) = k := by
  unfold digitVal
  rw [digitChar_toNat k h]
  omega

theorem isPySpace_digitChar (k : Nat) (h : k < 10) : isPySpace (digitChar k) = false := by
  unfold isPySpace
  rw [digitChar_toNat k h]
  exact nat_ws_test_false (by omega) (by omega)

theorem daysInMonth_le (y m : Nat) : daysInMonth y m ≤ 31 := by
  unfold daysInMonth
  split_ifs <;> omega

theorem fromisoformat_isoformat (d : Date) (h : d.validB = true) :
    Date.fromisoformat d.isoformat = some d := by
  obtain ⟨y, m, dd⟩ := d
  have hv : 1 ≤ y ∧ y ≤ 9999 ∧ 1 ≤ m ∧ m ≤ 12 ∧ 1 ≤ dd ∧ dd ≤ daysInMonth y m := by
    simpa [Date.validB, Bool.and_eq_true, decide_eq_true_eq, and_assoc] using h
  have hdm := daysInMonth_le y m
  have hiso : Date.isoformat ⟨y, m, dd⟩ =
      [digitChar (y / 1000 % 10), digitChar (y / 100 % 10), digitChar (y / 10 % 10),
       digitChar (y % 10), '-', digitChar (m / 10 % 10), digitChar (m % 10), '-',
       digitChar (dd / 10 % 10), digitChar (dd % 10)] := by
    simp [Date.isoformat, pad4, pad2]
  rw [hiso]
  simp only [Date.fromisoformat]
  have hguard : (('-' == '-') && ('-' == '-') &&
      ([digitChar (y / 1000 % 10), digitChar (y / 100 % 10), digitChar (y / 10 % 10),
        digitChar (y % 10), digitChar (m / 10 % 10), digitChar (m % 10),
        digitChar (dd / 10 % 10), digitChar (dd % 10)].all isPyDigit)) = true := by
    simp only [List.all_cons, List.all_nil, Bool.and_true]
    rw [isPyDigit_digitChar _ (by omega), isPyDigit_digitChar _ (by omega),
      isPyDigit_digitChar _ (by omega), isPyDigit_digitChar _ (by omega),
      isPyDigit_digitChar _ (by omega), isPyDigit_digitChar _ (by omega),
      isPyDigit_digitChar _ (by omega), isPyDigit_digitChar _ (by omega)]
    rfl
  rw [if_pos hguard]
  have hY : ((digitVal (digitChar (y / 1000 % 10)) * 10 +
      digitVal (digitChar (y / 100 % 10))) * 10 +
      digitVal (digitChar (y / 10 % 10))) * 10 + digitVal (digitChar (y % 10)) = y := by
    rw [digitVal_digitChar _ (by omega), digitVal_digitChar _ (by omega),
      digitVal_digitChar _ (by omega), digitVal_digitChar _ (by omega)]
    omega
  have hM : digitVal (digitChar (m / 10 % 10)) * 10 + digitVal (digitChar (m % 10)) = m := by
    rw [digitVal_digitChar _ (by omega), digitVal_digitChar _ (by omega)]
    omega
  have hD : digitVal (digitChar (dd / 10 % 10)) * 10 + digitVal (digitChar (dd % 10)) = dd := by
    rw [digitVal_digitChar _ (by omega), digitVal_digitChar _ (by omega)]
    omega
  rw [hY, hM, hD, if_pos h]

theorem status_roundtrip (st : Status) :
    pyStrip st.value ≠ [] ∧ Status.ofStr (pyLower (pyStrip st.value)) = some st := by
  cases st <;> exact ⟨by decide, rfl⟩

theorem iso_append_head (d : Date) (x : Str) :
    d.isoformat ++ x = digitChar (d.year / 1000 % 10) ::
      (digitChar (d.year / 100 % 10) :: digitChar (d.year / 10 % 10) ::
       digitChar (d.year % 10) :: '-' :: ((pad2 d.month ++ '-' :: pad2 d.day) ++ x)) := by
  simp [Date.isoformat, pad4]

theorem pyStrip_iso_append_ne_nil (d : Date) (x : Str) :
    pyStrip (d.isoformat ++ x) ≠ [] := by
  rw [Ne, pyStrip_eq_nil_iff]
  intro hall
  have hmem : digitChar (d.year / 1000 % 10) ∈ d.isoformat ++ x := by
    rw [iso_append_head]
    exact List.mem_cons_self _ _
  have hws := hall _ hmem
  rw [isPySpace_digitChar _ (by omega)] at hws
  exact Bool.noConfusion hws

theorem pyRstrip_iso_append (d : Date) (sfx : Str) (h1 : pyRstrip sfx = sfx)
    (h2 : sfx ≠ []) : pyRstrip (d.isoformat ++ sfx) = d.isoformat ++ sfx := by
  rw [pyRstrip_append_left _ _ (by rw [h1]; exact h2), h1]

theorem parseTaskLog_clean (path : Str) (lines : List Str)
    (h1 : ∀ l ∈ lines, pyStrip l ≠ []) (h2 : ∀ l ∈ lines, pyRstrip l = l)
    (h3 : lines ≠ []) : parseTaskLog path lines = .ok lines := by
  unfold parseTaskLog
  have hfilter : lines.filter (fun l => decide (pyStrip l ≠ [])) = lines :=
    List.filter_eq_self.mpr (fun l hl => decide_eq_true (h1 l hl))
  have hmap : lines.map pyRstrip = lines := by
    rw [List.map_congr_left h2, List.map_id']
  rw [hfilter, hmap, if_neg h3]

theorem parseLinksLoop_yaml (path : Str) (links : List Link)
    (h : ∀ l ∈ links, pyLower (pyStrip l.kind) = l.kind ∧ pyStrip l.value = l.value) :
    ∀ i, parseLinksLoop path
      (links.map (fun ln => YamlValue.vMap
        [(str "kind", .vStr ln.kind), (str "value", .vStr ln.value)])) i = .ok links := by
  induction links with
  | nil => intro i; rfl
  | cons l rest ih =>
    intro i
    simp only [List.map_cons, parseLinksLoop]
    have hk : dictGet [(str "kind", .vStr l.kind), (str "value", .vStr l.value)]
        (str "kind") = some (.vStr l.kind) := rfl
    have hv : dictGet [(str "kind", .vStr l.kind), (str "value", .vStr l.value)]
        (str "value") = some (.vStr l.value) := rfl
    rw [hk, hv, ih (fun x hx => h x (List.mem_cons_of_mem _ hx)) (i + 1)]
    obtain ⟨hk2, hv2⟩ := h l (List.mem_cons_self _ _)
    simp [Except.map, hk2, hv2]

theorem normaliseLinks_normal (raws : List Str) :
    ∀ l ∈ normaliseLinks raws,
      pyLower (pyStrip l.kind) = l.kind ∧ pyStrip l.value = l.value := by
  induction raws with
  | nil => intro l hl; exact absurd hl (List.not_mem_nil l)
  | cons raw rest ih =>
    intro l hl
    by_cases hblank : pyStrip raw = []
    · rw [show normaliseLinks (raw :: rest) = normaliseLinks rest by
        simp only [normaliseLinks, if_pos hblank]] at hl
      exact ih l hl
    · by_cases hcolon : (firstToken (pyStrip raw)).contains ':' = true
      · by_cases hkemp : pyLower (pyStrip (splitFirstColon (pyStrip raw)).1) = []
        · rw [show normaliseLinks (raw :: rest) =
              Link.mk (str "file") (pyStrip (splitFirstColon (pyStrip raw)).2) ::
                normaliseLinks rest by
            simp only [normaliseLinks, if_neg hblank, if_pos hcolon, if_pos hkemp]] at hl
          rcases List.mem_cons.mp hl with rfl | hrest
          · exact ⟨show pyLower (pyStrip (str "file")) = str "file" by decide, pyStrip_idem _⟩
          · exact ih l hrest
        · rw [show normaliseLinks (raw :: rest) =
              Link.mk (pyLower (pyStrip (splitFirstColon (pyStrip raw)).1))
                (pyStrip (splitFirstColon (pyStrip raw)).2) :: normaliseLinks rest by
            simp only [normaliseLinks, if_neg hblank, if_pos hcolon, if_neg hkemp]] at hl
          rcases List.mem_cons.mp hl with rfl | hrest
          · exact ⟨kind_normal_invariant _, pyStrip_idem _⟩
          · exact ih l hrest
      · rw [show normaliseLinks (raw :: rest) =
            Link.mk (str "file") (pyStrip raw) :: normaliseLinks rest by
          simp only [normaliseLinks, if_neg hblank, if_neg hcolon,
            if_neg (by decide : ¬(str "file" = ([] : Str)))]] at hl
        rcases List.mem_cons.mp hl with rfl | hrest
        · exact ⟨show pyLower (pyStrip (str "file")) = str "file" by decide, pyStrip_idem _⟩
        · exact ih l hrest

theorem date_leB_refl (d : Date) : Date.leB d d = true := by
  simp [Date.leB]

/-- C2: creating a task from a request satisfying the creation
preconditions (non-blank title; non-blank next action unless the status
is done; a well-formed Python date) and parsing the created directory
with the same today-date yields exactly the Task implied by the request:
the generated id, the request's title and status, the normalised next
action (empty when done), the normalised links, the stripped summary,
`last_touch = created = today`, format version 2 and the initial log
line(s). -/
theorem claim_C2 (today : Date) (req : NewTaskRequest) (entries : List (Str × Bool))
    (dpath : Str) (hdate : today.validB = true) (htitle : pyStrip req.title ≠ [])
    (hna : req.status ≠ .done → pyStrip req.next_action ≠ []) :
    parseTask dpath (createTask today req entries).2 (some (createTask today req entries).1) =
      .ok { task_id := (createTask today req entries).1,
            title := req.title,
            status := req.status,
            created := today,
            last_touch := today,
            next_action := (if req.status = .done then [] else pyStrip req.next_action),
            summary := pyStrip req.summary,
            log_lines := ([today.isoformat ++ str ": [created]"] ++
      (if req.status = .done then [today.isoformat ++ str ": [done]"] else [])),
            links := (normaliseLinks req.links),
            format_version := 2 } := by
  have hstripTid : pyStrip (createTask today req entries).1 ≠ [] := by
    have h : (createTask today req entries).1 = today.isoformat ++
        (str "__" ++ (pad3 (nextTaskSeq true entries today).toNat ++
          (str "__" ++ slugify req.title))) := by
      show today.isoformat ++ str "__" ++ pad3 (nextTaskSeq true entries today).toNat ++
        str "__" ++ slugify req.title = _
      simp [List.append_assoc]
    rw [h]
    exact pyStrip_iso_append_ne_nil today _
  have hprojy : (createTask today req entries).2.ymlFile =
      some (.vMap (renderTaskYml (createTask today req entries).1 req.title req.status today.isoformat today.isoformat
      (if req.status = .done then [] else pyStrip req.next_action) (normaliseLinks req.links) 2)) := rfl
  have hprojl : (createTask today req entries).2.logFile =
      some ([today.isoformat ++ str ": [created]"] ++
      (if req.status = .done then [today.isoformat ++ str ": [done]"] else [])) := rfl
  have hprojs : (createTask today req entries).2.summaryFile =
      (if pyRstrip req.summary = [] then none else some (pyRstrip req.summary ++ ['\n'])) := rfl
  have hreq : requireFiles dpath (createTask today req entries).2 = .ok () := rfl
  have hid : requireStrField (dpath ++ str "/task.yml") (renderTaskYml (createTask today req entries).1 req.title req.status today.isoformat today.isoformat
      (if req.status = .done then [] else pyStrip req.next_action) (normaliseLinks req.links) 2) (str "id") false = .ok (createTask today req entries).1 := by
    unfold requireStrField
    have hlid : dictGet (renderTaskYml (createTask today req entries).1 req.title req.status today.isoformat today.isoformat
      (if req.status = .done then [] else pyStrip req.next_action) (normaliseLinks req.links) 2) (str "id") = some (.vStr (createTask today req entries).1) := rfl
    simp only [hlid]
    rw [if_neg (by simp [hstripTid])]
  have hexp : checkExpectedId (dpath ++ str "/task.yml") (createTask today req entries).1 (some (createTask today req entries).1) = .ok () := by
    simp [checkExpectedId]
  have htitlef : requireStrField (dpath ++ str "/task.yml") (renderTaskYml (createTask today req entries).1 req.title req.status today.isoformat today.isoformat
      (if req.status = .done then [] else pyStrip req.next_action) (normaliseLinks req.links) 2) (str "title") false = .ok req.title := by
    unfold requireStrField
    have hlt : dictGet (renderTaskYml (createTask today req entries).1 req.title req.status today.isoformat today.isoformat
      (if req.status = .done then [] else pyStrip req.next_action) (normaliseLinks req.links) 2) (str "title") = some (.vStr req.title) := rfl
    simp only [hlt]
    rw [if_neg (by simp [htitle])]
  have hstatusf : parseStatusField (dpath ++ str "/task.yml") (renderTaskYml (createTask today req entries).1 req.title req.status today.isoformat today.isoformat
      (if req.status = .done then [] else pyStrip req.next_action) (normaliseLinks req.links) 2) = .ok req.status := by
    obtain ⟨hs1, hs2⟩ := status_roundtrip req.status
    unfold parseStatusField
    have hls : dictGet (renderTaskYml (createTask today req entries).1 req.title req.status today.isoformat today.isoformat
      (if req.status = .done then [] else pyStrip req.next_action) (normaliseLinks req.links) 2) (str "status") = some (.vStr req.status.value) := rfl
    simp only [bind, Except.bind, requireStrField, hls]
    rw [if_neg (by simp [hs1])]
    simp only [hs2]
  have hcreatedf : parseDateField (dpath ++ str "/task.yml") (renderTaskYml (createTask today req entries).1 req.title req.status today.isoformat today.isoformat
      (if req.status = .done then [] else pyStrip req.next_action) (normaliseLinks req.links) 2) (str "created") = .ok today := by
    unfold parseDateField
    have hlc : dictGet (renderTaskYml (createTask today req entries).1 req.title req.status today.isoformat today.isoformat
      (if req.status = .done then [] else pyStrip req.next_action) (normaliseLinks req.links) 2) (str "created") = some (.vStr today.isoformat) := rfl
    simp only [hlc, fromisoformat_isoformat today hdate]
  have hlastf : parseDateField (dpath ++ str "/task.yml") (renderTaskYml (createTask today req entries).1 req.title req.status today.isoformat today.isoformat
      (if req.status = .done then [] else pyStrip req.next_action) (normaliseLinks req.links) 2) (str "last_touch") = .ok today := by
    unfold parseDateField
    have hll : dictGet (renderTaskYml (createTask today req entries).1 req.title req.status today.isoformat today.isoformat
      (if req.status = .done then [] else pyStrip req.next_action) (normaliseLinks req.links) 2) (str "last_touch") = some (.vStr today.isoformat) := rfl
    simp only [hll, fromisoformat_isoformat today hdate]
  have hnextf : requireStrField (dpath ++ str "/task.yml") (renderTaskYml (createTask today req entries).1 req.title req.status today.isoformat today.isoformat
      (if req.status = .done then [] else pyStrip req.next_action) (normaliseLinks req.links) 2) (str "next_action") true =
      .ok (if req.status = .done then [] else pyStrip req.next_action) := by
    unfold requireStrField
    have hln : dictGet (renderTaskYml (createTask today req entries).1 req.title req.status today.isoformat today.isoformat
      (if req.status = .done then [] else pyStrip req.next_action) (normaliseLinks req.links) 2) (str "next_action") = some (.vStr (if req.status = .done then [] else pyStrip req.next_action)) := rfl
    simp [hln]
  have hlinksf : parseLinks (dpath ++ str "/task.yml") (renderTaskYml (createTask today req entries).1 req.title req.status today.isoformat today.isoformat
      (if req.status = .done then [] else pyStrip req.next_action) (normaliseLinks req.links) 2) = .ok (normaliseLinks req.links) := by
    unfold parseLinks
    have hll : dictGet (renderTaskYml (createTask today req entries).1 req.title req.status today.isoformat today.isoformat
      (if req.status = .done then [] else pyStrip req.next_action) (normaliseLinks req.links) 2) (str "links") =
        some (.vList ((normaliseLinks req.links).map (fun ln => YamlValue.vMap
          [(str "kind", .vStr ln.kind), (str "value", .vStr ln.value)]))) := rfl
    simp only [hll]
    exact parseLinksLoop_yaml _ _ (normaliseLinks_normal req.links) 1
  have hlogf : parseTaskLog (dpath ++ str "/task.log") ([today.isoformat ++ str ": [created]"] ++
      (if req.status = .done then [today.isoformat ++ str ": [done]"] else [])) = .ok ([today.isoformat ++ str ": [created]"] ++
      (if req.status = .done then [today.isoformat ++ str ": [done]"] else [])) := by
    apply parseTaskLog_clean
    · intro l hl
      rcases List.mem_append.mp hl with hl | hl
      · rw [List.mem_singleton.mp hl]
        exact pyStrip_iso_append_ne_nil today _
      · by_cases hdone : req.status = .done
        · rw [if_pos hdone] at hl
          rw [List.mem_singleton.mp hl]
          exact pyStrip_iso_append_ne_nil today _
        · rw [if_neg hdone] at hl
          exact absurd hl (List.not_mem_nil l)
    · intro l hl
      rcases List.mem_append.mp hl with hl | hl
      · rw [List.mem_singleton.mp hl]
        exact pyRstrip_iso_append today _ (by decide) (by decide)
      · by_cases hdone : req.status = .done
        · rw [if_pos hdone] at hl
          rw [List.mem_singleton.mp hl]
          exact pyRstrip_iso_append today _ (by decide) (by decide)
        · rw [if_neg hdone] at hl
          exact absurd hl (List.not_mem_nil l)
    · simp
  have hfmt : optionalIntField (renderTaskYml (createTask today req entries).1 req.title req.status today.isoformat today.isoformat
      (if req.status = .done then [] else pyStrip req.next_action) (normaliseLinks req.links) 2) (str "format") 2 = 2 := rfl
  have hval : ∀ (sm : Str) (ll : List Str) (lk : List Link) (fv : Int),
      Task.validate
        { task_id := (createTask today req entries).1,
          title := req.title,
          status := req.status,
          created := today,
          last_touch := today,
          next_action := (if req.status = .done then [] else pyStrip req.next_action),
          summary := sm, log_lines := ll, links := lk, format_version := fv } =
        .ok () := by
    intro sm ll lk fv
    apply (aux_validate_ok_iff _).mpr
    refine ⟨hstripTid, htitle, date_leB_refl today, ?_, ?_⟩
    · intro hd
      show pyStrip (if req.status = .done then [] else pyStrip req.next_action) = []
      rw [if_pos hd]
      rfl
    · intro hd
      show pyStrip (if req.status = .done then [] else pyStrip req.next_action) ≠ []
      rw [if_neg hd, pyStrip_idem]
      exact hna hd
  unfold parseTask
  by_cases hS : pyRstrip req.summary = []
  · have hS0 : pyStrip req.summary = [] := pyStrip_eq_nil_of_pyRstrip_eq_nil _ hS
    simp only [bind, Except.bind, hprojy, hprojl, hprojs, if_pos hS, hreq, hid, hexp,
      htitlef, hstatusf, hcreatedf, hlastf, hnextf, hlinksf, hlogf, hfmt, hS0, hval]
    try rfl
  · have hS1 : pyStrip (pyRstrip req.summary ++ ['\n']) = pyStrip req.summary :=
      pyStrip_summary_file _
    simp only [bind, Except.bind, hprojy, hprojl, hprojs, if_neg hS, hreq, hid, hexp,
      htitlef, hstatusf, hcreatedf, hlastf, hnextf, hlinksf, hlogf, hfmt, hS1, hval]
    try rfl

theorem claim_C2_witness :
    Date.validB ⟨2024, 1, 2⟩ = true ∧
    pyStrip (str "Fix bug") ≠ [] ∧
    (Status.active ≠ Status.done → pyStrip (str " do it ") ≠ []) ∧
    parseTask (str "d")
        (createTask ⟨2024, 1, 2⟩
          (NewTaskRequest.mk (str "Fix bug") .active (str " do it ") (str "notes")
            [str "doc: a"]) []).2
        (some (createTask ⟨2024, 1, 2⟩
          (NewTaskRequest.mk (str "Fix bug") .active (str " do it ") (str "notes")
            [str "doc: a"]) []).1) =
      .ok (Task.mk (str "2024-01-02__001__fix_bug") (str "Fix bug") .active
        ⟨2024, 1, 2⟩ ⟨2024, 1, 2⟩ (str "do it") (str "notes")
        [str "2024-01-02: [created]"] [Link.mk (str "doc") (str "a")] 2) :=
  ⟨by decide, by decide, by decide,
    claim_C2 ⟨2024, 1, 2⟩
      (NewTaskRequest.mk (str "Fix bug") .active (str " do it ") (str "notes")
        [str "doc: a"]) [] (str "d") (by decide) (by decide) (by decide)⟩

end Tskctl
